import Mathlib

/-!
Verification development for tidy-inbox: a shallow embedding of the
header-decoding, grouping, filtering, ranking and query-generation logic of
src/tidy_inbox.py, together with theorems settling the specification's claims.

Stdlib collaborators (email.header.decode_header, bytes.decode,
email.utils.parseaddr, dateutil.parser.parse) are modelled as executable Lean
functions on the restricted input domains this development exercises; the model
choice is documented at each definition.  Python exceptions are modelled by the
Except monad, console warnings by an explicit Warning list threaded through the
grouping fold, the insertion-ordered Python dict by an insertion-ordered
association list, and UTC datetimes by natural-number timestamps whose minimum
value 0 plays the role of datetime.min.
-/

namespace TidyInbox

/-- A single header record as delivered by the Gmail metadata fetch: a name and
a raw value string. -/
structure Header where
  name : String
  value : String
deriving DecidableEq

/-- A message metadata record as consumed by group_emails: the optional opaque
id (msg.get('id')) and the payload header list. -/
structure Msg where
  id : Option String
  headers : List Header
deriving DecidableEq

/-- ASCII lower-casing of one character (the str.lower step applied to header
names, which are ASCII). -/
def char_lower (c : Char) : Char :=
  if 65 ≤ c.toNat ∧ c.toNat ≤ 90 then Char.ofNat (c.toNat + 32) else c

/-- ASCII model of Python str.lower. -/
def str_lower (s : String) : String := String.mk (s.data.map char_lower)

/-- Split a character list at every occurrence of sep (Python str.split for a
single-character separator). -/
def split_char (sep : Char) : List Char → List (List Char)
  | [] => [[]]
  | x :: xs =>
    match split_char sep xs with
    | y :: ys => if x = sep then [] :: y :: ys else (x :: y) :: ys
    | [] => if x = sep then [[], []] else [[x]]

/-- Model of Python email.header.decode_header, restricted to the two value
forms this development exercises: a value that is a single RFC 2047 encoded
word "=?charset?enc?payload?=" yields one (payload, some charset) part (the
base64/quoted-printable transfer decoding is abstracted away), and any other
value is a single plain part with no declared charset. -/
def decode_header (s : String) : List (String × Option String) :=
  match s.data with
  | '=' :: '?' :: rest =>
    match (split_char '?' rest).map String.mk with
    | [cs, _enc, payload, "="] => [(payload, some cs)]
    | _ => [(s, none)]
  | _ => [(s, none)]

/-- Model of Python bytes.decode(charset): a known codec returns the payload
(already text in this model), an unknown codec raises LookupError, modelled as
none. -/
def codec_decode (payload charset : String) : Option String :=
  let cl := str_lower charset
  if cl = "utf-8" || cl = "utf8" || cl = "ascii" || cl = "us-ascii"
      || cl = "iso-8859-1" || cl = "latin-1"
  then some payload else none

/-- Model of ' '.join. -/
def join_space : List String → String
  | [] => ""
  | [p] => p
  | p :: rest => p ++ " " ++ join_space rest

/-- Embedding of decode_email_header (src/tidy_inbox.py lines 28-37): decode
each part carrying a declared charset, keep plain parts as they are, and join
the decoded parts with a single space.  A part whose charset decode raises is
an Except.error, exactly as the Python function lets the exception escape. -/
def decode_email_header (header : String) : Except String String := do
  let parts ← (decode_header header).mapM (fun part =>
    match part.2 with
    | some cs =>
      match codec_decode part.1 cs with
      | some t => Except.ok t
      | none => Except.error ("unknown encoding: " ++ cs)
    | none => Except.ok part.1)
  pure (join_space parts)

/-- Split a character list at the first occurrence of c, returning the parts
before and after it. -/
def splitOnceChar (c : Char) : List Char → Option (List Char × List Char)
  | [] => none
  | x :: xs =>
    if x = c then some ([], xs)
    else (splitOnceChar c xs).map (fun p => (x :: p.1, p.2))

/-- Model of Python email.utils.parseaddr restricted to the forms exercised
here: "Display <addr>" yields (display, addr); a value containing '<' with no
closing '>' yields ("", ""); a value with no '<' at all is returned whole as
the address part (matching parseaddr on bare addresses). -/
def parseaddr (s : String) : String × String :=
  match splitOnceChar '<' s.data with
  | none => ("", s)
  | some (pre, rest) =>
    match splitOnceChar '>' rest with
    | none => ("", "")
    | some (inside, _) => (String.mk pre, String.mk inside)

/-- Embedding of sender_email_pattern.search (line 159, regex <(.*?)>): the
text between the first '<' and the first '>' following it, when both exist. -/
def bracket_extract (s : String) : Option String :=
  match splitOnceChar '<' s.data with
  | none => none
  | some (_, rest) =>
    match splitOnceChar '>' rest with
    | none => none
    | some (inside, _) => some (String.mk inside)

/-- The sender-address fallback chain of lines 178-183: parseaddr's address
part when truthy, else the angle-bracket regex match, else the whole decoded
sender text. -/
def sender_address (sender : String) : String :=
  let addr := (parseaddr sender).2
  if addr ≠ "" then addr
  else
    match bracket_extract sender with
    | some g1 => g1
    | none => sender

/-- The per-message local state of the header loop (lines 167-171). -/
structure MsgInfo where
  sender : String
  sender_email : Option String
  subject : String
  date_str : Option String
  unsub : Bool
deriving DecidableEq

/-- The defaults of lines 167-171. -/
def initInfo : MsgInfo :=
  { sender := "Unknown Sender", sender_email := none, subject := "No Subject",
    date_str := none, unsub := false }

/-- One iteration of the header loop (lines 173-189).  Header names match
case-insensitively; a From or Subject value is decoded (which may raise); a
later occurrence of the same header overwrites the locals set by an earlier
one; any List-Unsubscribe occurrence sets the flag regardless of its value. -/
def headerStep (st : MsgInfo) (h : Header) : Except String MsgInfo :=
  let name := str_lower h.name
  if name = "from" then do
    let sender ← decode_email_header h.value
    pure { st with sender := sender, sender_email := some (sender_address sender) }
  else if name = "subject" then do
    let subj ← decode_email_header h.value
    pure { st with subject := subj }
  else if name = "date" then pure { st with date_str := some h.value }
  else if name = "list-unsubscribe" then pure { st with unsub := true }
  else pure st

/-- The whole header loop for one message. -/
def extract_msg (m : Msg) : Except String MsgInfo :=
  m.headers.foldlM headerStep initInfo

/-- The successfully extracted locals of a message, when no decode raised. -/
def msg_info (m : Msg) : Option MsgInfo := (extract_msg m).toOption

/-- The truthiness test of line 191 (if not sender_email): the grouping key
when the extracted value is a non-empty string, none otherwise. -/
def sender_key (st : MsgInfo) : Option String :=
  match st.sender_email with
  | some k => if k = "" then none else some k
  | none => none

/-- The grouping key of a message, none when the message is dropped for a
missing sender (and also when extraction raises, in which case the whole run
aborts before the key is consulted). -/
def msg_key (m : Msg) : Option String := (msg_info m).bind sender_key

/-- Numeric value of a decimal digit character. -/
def digit_val (c : Char) : Option Nat :=
  if 48 ≤ c.toNat ∧ c.toNat ≤ 57 then some (c.toNat - 48) else none

/-- Model of dateutil.parser.parse followed by astimezone(utc): timestamps are
naturals and the parseable date strings of the model are exactly the nonempty
digit strings, denoting their numeric value.  An unparsable string raises,
modelled as none. -/
def date_parse (s : String) : Option Nat :=
  match s.data with
  | [] => none
  | l => l.foldl (fun acc c => acc.bind (fun n => (digit_val c).map (fun d => 10 * n + d)))
      (some 0)

/-- One per-sender aggregate record (the defaultdict value of line 158). -/
structure GroupData where
  count : Nat
  ids : List (Option String)
  latest_date : Option Nat
  subject : Option String
  sender_display : Option String
  has_list_unsubscribe : Bool
deriving DecidableEq

/-- The defaultdict default of line 158. -/
def defaultGroup : GroupData :=
  { count := 0, ids := [], latest_date := none, subject := none,
    sender_display := none, has_list_unsubscribe := false }

/-- The mutation one message applies to its sender's group (lines 196-211):
count incremented, id appended, unsubscribe flag OR-ed, and the latest-date /
subject / display-sender triple updated together exactly when the message's
date is present, truthy, parses, and is strictly newer than the current
latest date (or none is set yet). -/
def apply_msg (st : MsgInfo) (mid : Option String) (g : GroupData) : GroupData :=
  let g1 : GroupData :=
    { g with
        count := g.count + 1
        ids := g.ids ++ [mid]
        has_list_unsubscribe := g.has_list_unsubscribe || st.unsub }
  match st.date_str with
  | none => g1
  | some ds =>
    if ds = "" then g1
    else
      match date_parse ds with
      | none => g1
      | some d =>
        match g1.latest_date with
        | none =>
          { g1 with
              latest_date := some d
              subject := some st.subject
              sender_display := some st.sender }
        | some cur =>
          if cur < d then
            { g1 with
                latest_date := some d
                subject := some st.subject
                sender_display := some st.sender }
          else g1

/-- Update the entry for key in the insertion-ordered association list that
models the Python dict, appending a fresh defaulted entry at the end when the
key is new (defaultdict access order). -/
def update_group (acc : List (String × GroupData)) (key : String)
    (f : GroupData → GroupData) : List (String × GroupData) :=
  match acc with
  | [] => [(key, f defaultGroup)]
  | (k, g) :: rest =>
    if k = key then (k, f g) :: rest else (k, g) :: update_group rest key f

/-- The two warnings group_emails emits per message (lines 192 and 211). -/
inductive Warning where
  | noSender (sender : String)
  | badDate (dateStr : String) (senderEmail : String)
deriving DecidableEq

/-- The warning of line 211: emitted exactly when the Date header is present,
truthy, and fails to parse. -/
def bad_date_warning (st : MsgInfo) (key : String) : List Warning :=
  match st.date_str with
  | none => []
  | some ds => if ds ≠ "" ∧ date_parse ds = none then [Warning.badDate ds key] else []

/-- One iteration of the message loop of group_emails (lines 165-213),
threading the grouped accumulator together with the emitted warnings. -/
def group_step (acc : List (String × GroupData) × List Warning) (m : Msg) :
    Except String (List (String × GroupData) × List Warning) := do
  let st ← extract_msg m
  match sender_key st with
  | none => pure (acc.1, acc.2 ++ [Warning.noSender st.sender])
  | some key =>
    pure (update_group acc.1 key (apply_msg st m.id), acc.2 ++ bad_date_warning st key)

/-- group_emails before its retention filter (lines 157-215). -/
def group_emails_raw (messages : List Msg) :
    Except String (List (String × GroupData) × List Warning) :=
  messages.foldlM group_step ([], [])

/-- The retention predicate of lines 218-221. -/
def newsletter_keep (g : GroupData) : Bool := g.has_list_unsubscribe || g.count > 1

/-- Embedding of group_emails (lines 157-223): accumulate every message, then
keep only the groups with a List-Unsubscribe member or more than one
message. -/
def group_emails (messages : List Msg) :
    Except String (List (String × GroupData) × List Warning) :=
  (group_emails_raw messages).map
    (fun r => (r.1.filter (fun kg => newsletter_keep kg.2), r.2))

/-- Number of input messages not dropped for a missing sender address. -/
def msgs_with_sender (messages : List Msg) : Nat :=
  messages.countP (fun m => (msg_key m).isSome)

/-- datetime.min model: a group without a latest date sorts as timestamp 0. -/
def date_or_min (d : Option Nat) : Nat := d.getD 0

/-- Lexicographic at-most on (primary, secondary) sort keys. -/
def key_le (a b : Nat × Nat) : Prop := a.1 < b.1 ∨ (a.1 = b.1 ∧ a.2 ≤ b.2)

instance : DecidableRel key_le := fun a b => by
  unfold key_le; infer_instance

/-- The order Python's sorted(..., key=(count, date-or-min), reverse=True)
realises for criteria count: x may precede y when y's key is lexicographically
at most x's. -/
def count_before (x y : String × GroupData) : Prop :=
  key_le (y.2.count, date_or_min y.2.latest_date) (x.2.count, date_or_min x.2.latest_date)

/-- The corresponding order for criteria date. -/
def date_before (x y : String × GroupData) : Prop :=
  key_le (date_or_min y.2.latest_date, y.2.count) (date_or_min x.2.latest_date, x.2.count)

instance : DecidableRel count_before := fun x y => by
  unfold count_before; infer_instance

instance : DecidableRel date_before := fun x y => by
  unfold date_before; infer_instance

/-- Embedding of sort_groups (lines 226-238).  Python's sorted with a key
function and reverse=True is the stable sort by the descending key order;
a stable sort by a total preorder is computed by insertion sort. -/
def sort_groups (groups : List (String × GroupData)) (criteria : String) :
    List (String × GroupData) :=
  if criteria = "count" then List.insertionSort count_before groups
  else if criteria = "date" then List.insertionSort date_before groups
  else List.insertionSort count_before groups

/-- Embedding of generate_filter_query (lines 241-243). -/
def generate_filter_query (sender_email : String) : String :=
  "from:(" ++ sender_email ++ ")"

/-- The f-string of line 280. -/
def full_filter_string (query filter_query : String) : String :=
  query ++ " " ++ filter_query

/-- The f-string of line 282. -/
def search_url (encoded_query : String) : String :=
  "https://mail.google.com/mail/u/0/#search/" ++ encoded_query

/-- UTF-8 encoding of one character: the str-to-bytes step Python's quote
performs before percent-encoding. -/
def char_utf8 (c : Char) : List Nat :=
  let n := c.toNat
  if n < 128 then [n]
  else if n < 2048 then [192 + n / 64, 128 + n % 64]
  else if n < 65536 then [224 + n / 4096, 128 + n / 64 % 64, 128 + n % 64]
  else [240 + n / 262144, 128 + n / 4096 % 64, 128 + n / 64 % 64, 128 + n % 64]

/-- The UTF-8 bytes of a string. -/
def str_bytes (s : String) : List Nat := (s.data.map char_utf8).flatten

/-- The characters urllib.parse.quote never escapes: ASCII letters, digits,
underscore, dot, hyphen and tilde. -/
def always_safe (b : Nat) : Bool :=
  (65 ≤ b && b ≤ 90) || (97 ≤ b && b ≤ 122) || (48 ≤ b && b ≤ 57)
    || b == 95 || b == 46 || b == 45 || b == 126

/-- Uppercase hex digit of a value below 16. -/
def hex_digit (n : Nat) : Char :=
  if n < 10 then Char.ofNat (48 + n) else Char.ofNat (55 + n)

/-- urllib.parse.quote_plus on a single byte: safe bytes unchanged, the space
becomes a plus, everything else is percent-escaped in uppercase hex. -/
def quote_byte (b : Nat) : List Char :=
  if always_safe b then [Char.ofNat b]
  else if b = 32 then ['+']
  else ['%', hex_digit (b / 16), hex_digit (b % 16)]

/-- Embedding of urllib.parse.quote_plus at the byte level (line 281). -/
def quote_plus (bs : List Nat) : List Char := (bs.map quote_byte).flatten

/-- Numeric value of a hex digit character. -/
def hex_val (c : Char) : Option Nat :=
  if 48 ≤ c.toNat ∧ c.toNat ≤ 57 then some (c.toNat - 48)
  else if 65 ≤ c.toNat ∧ c.toNat ≤ 70 then some (c.toNat - 55)
  else if 97 ≤ c.toNat ∧ c.toNat ≤ 102 then some (c.toNat - 87)
  else none

/-- A valid two-hex-digit escape tail: the decoded byte and the remaining
characters. -/
def percent_decode : List Char → Option (Nat × List Char)
  | h1 :: h2 :: t =>
    match hex_val h1, hex_val h2 with
    | some a, some b => some (16 * a + b, t)
    | _, _ => none
  | _ => none

theorem percent_decode_length {l : List Char} {b : Nat} {t : List Char}
    (h : percent_decode l = some (b, t)) : t.length + 2 = l.length := by
  match l with
  | [] => simp [percent_decode] at h
  | [_] => simp [percent_decode] at h
  | h1 :: h2 :: t' =>
    simp only [percent_decode] at h
    cases hv1 : hex_val h1 <;> cases hv2 : hex_val h2 <;>
      simp [hv1, hv2] at h
    simp [h.2, List.length_cons]

/-- Embedding of urllib.parse.unquote_plus at the byte level: a plus decodes
to a space, a valid percent escape to its byte, anything else to itself. -/
def unquote_plus (l : List Char) : List Nat :=
  match l with
  | [] => []
  | c :: rest =>
    if c = '+' then 32 :: unquote_plus rest
    else if c = '%' then
      match hp : percent_decode rest with
      | some (b, rest2) => b :: unquote_plus rest2
      | none => c.toNat :: unquote_plus rest
    else c.toNat :: unquote_plus rest
termination_by l.length
decreasing_by
  all_goals simp only [List.length_cons]
  · omega
  · have hl := percent_decode_length hp
    omega
  · omega
  · omega

/-- The three latest-message fields of a group are all unset. -/
def all_latest_none (g : GroupData) : Prop :=
  g.latest_date = none ∧ g.subject = none ∧ g.sender_display = none

/-- The parsed date a message contributes, none when the Date header is
absent, empty (falsy) or unparsable. -/
def parsed_date (st : MsgInfo) : Option Nat := st.date_str.bind date_parse

/-- The latest-fields invariant for one group keyed kg.1 with respect to the
message list: either all three latest fields are unset and no attributed
message carries a parseable date, or all three are set and come from one
attributed message whose parsed date is maximal among the group's members. -/
def sync_ok (msgs : List Msg) (kg : String × GroupData) : Prop :=
  (all_latest_none kg.2
      ∧ ∀ m ∈ msgs, ∀ st, msg_info m = some st → sender_key st = some kg.1 →
          parsed_date st = none)
    ∨ ∃ m ∈ msgs, ∃ st, msg_info m = some st ∧ sender_key st = some kg.1
        ∧ ∃ d, parsed_date st = some d
          ∧ kg.2.latest_date = some d
          ∧ kg.2.subject = some st.subject
          ∧ kg.2.sender_display = some st.sender
          ∧ ∀ m' ∈ msgs, ∀ st', msg_info m' = some st' → sender_key st' = some kg.1 →
              ∀ d', parsed_date st' = some d' → d' ≤ d

/-- The current aggregate of a key in the association list, the defaultdict
default when the key is absent. -/
def find_group (gs : List (String × GroupData)) (key : String) : GroupData :=
  match gs.find? (fun kg => kg.1 = key) with
  | some kg => kg.2
  | none => defaultGroup

/-- The value of the last header whose name matches n case-insensitively. -/
def last_header (n : String) (hs : List Header) : Option String :=
  ((hs.filter (fun h => str_lower h.name = n)).getLast?).map (fun h => h.value)

/-- Invariants of the pre-filter grouping that several claims rely on:
unique keys, keys covering every non-dropped message, every key taken
verbatim from some attributed message's extracted address, and the
latest-fields synchronisation of every group. -/
structure raw_inv (msgs : List Msg) (gs : List (String × GroupData)) : Prop where
  nodup : (gs.map Prod.fst).Nodup
  cover : ∀ m ∈ msgs, ∀ st, msg_info m = some st → ∀ k, sender_key st = some k →
    k ∈ gs.map Prod.fst
  keysrc : ∀ kg ∈ gs, ∃ m ∈ msgs, ∃ st, msg_info m = some st ∧ sender_key st = some kg.1
  sync : ∀ kg ∈ gs, sync_ok msgs kg

/-- A message whose From header is a single encoded word with an unsupported
declared encoding: its header decode raises. -/
def badEncodingMsg : Msg :=
  { id := some "1", headers := [{ name := "From", value := "=?x-unknown?B?zzzz?=" }] }

/-- A record with no headers at all: the required From field is absent. -/
def headerlessMsg : Msg := { id := some "m0", headers := [] }

/-- Two messages whose extracted sender addresses differ only in letter
case. -/
def caseMsgA : Msg :=
  { id := some "a1",
    headers := [{ name := "From", value := "Foo A <Foo@Bar.com>" },
                { name := "List-Unsubscribe", value := "mailto:u@x" }] }

def caseMsgB : Msg :=
  { id := some "a2",
    headers := [{ name := "From", value := "foo b <foo@bar.com>" },
                { name := "List-Unsubscribe", value := "mailto:u@x" }] }

/-- A single message with an extractable sender, no List-Unsubscribe header
and no date: it is not dropped, yet its group is filtered out. -/
def loneMsg : Msg := { id := some "m1", headers := [{ name := "From", value := "<a@b>" }] }

/-- A newsletter-like message: sender, parseable date, subject and a
List-Unsubscribe header. -/
def newsMsg : Msg :=
  { id := some "n1",
    headers := [{ name := "From", value := "News <n@x.com>" },
                { name := "Date", value := "100" },
                { name := "Subject", value := "Hello" },
                { name := "List-Unsubscribe", value := "mailto:u@x" }] }

/-- Like newsMsg but with an unparsable Date header. -/
def badDateMsg : Msg :=
  { id := some "n2",
    headers := [{ name := "From", value := "News <n@x.com>" },
                { name := "Date", value := "not-a-date" },
                { name := "Subject", value := "Later" },
                { name := "List-Unsubscribe", value := "mailto:u@x" }] }

/-- The extracted locals of badDateMsg. -/
def badDateInfo : MsgInfo :=
  { sender := "News <n@x.com>", sender_email := some "n@x.com", subject := "Later",
    date_str := some "not-a-date", unsub := true }

/-- The aggregate groups caseMsgA and caseMsgB produce. -/
def caseGroupA : GroupData :=
  { count := 1, ids := [some "a1"], latest_date := none, subject := none,
    sender_display := none, has_list_unsubscribe := true }

def caseGroupB : GroupData :=
  { count := 1, ids := [some "a2"], latest_date := none, subject := none,
    sender_display := none, has_list_unsubscribe := true }

/-- The aggregate group loneMsg alone produces. -/
def loneGroup : GroupData :=
  { count := 1, ids := [some "m1"], latest_date := none, subject := none,
    sender_display := none, has_list_unsubscribe := false }

/-- The aggregate group newsMsg alone produces. -/
def newsGroup : GroupData :=
  { count := 1, ids := [some "n1"], latest_date := some 100, subject := some "Hello",
    sender_display := some "News <n@x.com>", has_list_unsubscribe := true }

/-- A header list with duplicate From, Date and Subject headers in varying
name case, plus a List-Unsubscribe. -/
def dupHeaders : List Header :=
  [{ name := "From", value := "A <a@x>" },
   { name := "FROM", value := "B <b@y>" },
   { name := "Date", value := "1" },
   { name := "date", value := "2" },
   { name := "Subject", value := "s1" },
   { name := "SUBJECT", value := "s2" },
   { name := "List-Unsubscribe", value := "u" }]

/-- The locals the header loop extracts from dupHeaders. -/
def dupInfo : MsgInfo :=
  { sender := "B <b@y>", sender_email := some "b@y", subject := "s2",
    date_str := some "2", unsub := true }

/-- The three ranking-example groups of the specification, with dates
2024-01-01, 2024-02-01 and 2024-03-01 rendered as numeric timestamps. -/
def exampleA : GroupData :=
  { count := 5, ids := [], latest_date := some 20240101, subject := none,
    sender_display := none, has_list_unsubscribe := true }

def exampleB : GroupData :=
  { count := 5, ids := [], latest_date := some 20240201, subject := none,
    sender_display := none, has_list_unsubscribe := true }

def exampleC : GroupData :=
  { count := 3, ids := [], latest_date := some 20240301, subject := none,
    sender_display := none, has_list_unsubscribe := true }

/-! ### General lemmas -/

theorem msg_info_eq_some {m : Msg} {st : MsgInfo} :
    msg_info m = some st ↔ extract_msg m = Except.ok st := by
  unfold msg_info
  cases extract_msg m <;> simp [Except.toOption]

/-! ### Percent-encoding lemmas (claim C2) -/

theorem hexval_hexdigit : ∀ n, n < 16 → hex_val (hex_digit n) = some n := by decide

set_option maxRecDepth 8192 in
theorem safe_byte_facts : ∀ b, b < 256 → always_safe b = true →
    Char.ofNat b ≠ '+' ∧ Char.ofNat b ≠ '%' ∧ (Char.ofNat b).toNat = b := by decide

theorem unquote_plus_plus (rest : List Char) :
    unquote_plus ('+' :: rest) = 32 :: unquote_plus rest := by
  simp only [unquote_plus]
  simp

theorem unquote_plus_other {c : Char} (h1 : c ≠ '+') (h2 : c ≠ '%') (rest : List Char) :
    unquote_plus (c :: rest) = c.toNat :: unquote_plus rest := by
  simp only [unquote_plus]
  simp [h1, h2]

theorem unquote_plus_percent {rest t : List Char} {b : Nat}
    (hp : percent_decode rest = some (b, t)) :
    unquote_plus ('%' :: rest) = b :: unquote_plus t := by
  simp only [unquote_plus]
  rw [if_neg (by decide), if_pos trivial]
  split
  · rename_i b' rest2 heq
    rw [hp] at heq
    simp only [Option.some.injEq, Prod.mk.injEq] at heq
    rw [heq.1, heq.2]
  · rename_i heq
    rw [hp] at heq
    simp at heq

theorem unquote_quote_byte (b : Nat) (hb : b < 256) (rest : List Char) :
    unquote_plus (quote_byte b ++ rest) = b :: unquote_plus rest := by
  by_cases hs : always_safe b = true
  · obtain ⟨h1, h2, h3⟩ := safe_byte_facts b hb hs
    simp only [quote_byte, hs, if_pos, List.singleton_append]
    rw [unquote_plus_other h1 h2, h3]
  · by_cases h32 : b = 32
    · subst h32
      simp only [quote_byte, hs]
      simp only [Bool.false_eq_true, if_false, if_pos]
      exact unquote_plus_plus rest
    · have hd1 : hex_val (hex_digit (b / 16)) = some (b / 16) :=
        hexval_hexdigit _ (by omega)
      have hd2 : hex_val (hex_digit (b % 16)) = some (b % 16) :=
        hexval_hexdigit _ (by omega)
      have hq : quote_byte b = ['%', hex_digit (b / 16), hex_digit (b % 16)] := by
        simp [quote_byte, hs, h32]
      rw [hq]
      have hp : percent_decode (hex_digit (b / 16) :: hex_digit (b % 16) :: rest)
          = some (16 * (b / 16) + b % 16, rest) := by
        simp [percent_decode, hd1, hd2]
      have := unquote_plus_percent hp
      simp only [List.cons_append, List.nil_append]
      rw [this]
      congr 1
      omega

theorem unquote_plus_quote_plus (bs : List Nat) (hb : ∀ b ∈ bs, b < 256) :
    unquote_plus (quote_plus bs) = bs := by
  induction bs with
  | nil => simp [quote_plus, unquote_plus]
  | cons b t ih =>
    have hq : quote_plus (b :: t) = quote_byte b ++ quote_plus t := by
      simp [quote_plus]
    rw [hq, unquote_quote_byte b (hb b (by simp)) _,
      ih (fun x hx => hb x (by simp [hx]))]

theorem char_utf8_lt (c : Char) : ∀ b ∈ char_utf8 c, b < 256 := by
  have hv : c.toNat < 1114112 := by
    have h := c.valid
    show c.val.toNat < 1114112
    rcases h with h | ⟨h1, h2⟩ <;> omega
  intro b hbmem
  unfold char_utf8 at hbmem
  by_cases h1 : c.toNat < 128
  · simp [h1] at hbmem; omega
  · by_cases h2 : c.toNat < 2048
    · simp [h1, h2] at hbmem
      rcases hbmem with h | h <;> omega
    · by_cases h3 : c.toNat < 65536
      · simp [h1, h2, h3] at hbmem
        rcases hbmem with h | h | h <;> omega
      · simp [h1, h2, h3] at hbmem
        have hq : c.toNat / 262144 < 5 := by omega
        rcases hbmem with h | h | h | h <;> omega

theorem str_bytes_lt (s : String) : ∀ b ∈ str_bytes s, b < 256 := by
  intro b hb
  unfold str_bytes at hb
  rw [List.mem_flatten] at hb
  obtain ⟨l, hl, hbl⟩ := hb
  rw [List.mem_map] at hl
  obtain ⟨c, _, hc⟩ := hl
  exact char_utf8_lt c b (hc ▸ hbl)

/-! ### Claim C2 -/

/-- C2, corrected.  For every original query Q and sender s the generated
fullFilter equals Q ++ " " ++ "from:(" ++ s ++ ")"; the quote_plus encoding of
any fullFilter round-trips exactly through the matching unquote_plus decoding;
and colons, parentheses are percent-encoded while a space is encoded as a plus
sign (not percent-encoded). -/
theorem c2_filter_query_encoding (Q s t : String) :
    full_filter_string Q (generate_filter_query s) = Q ++ " " ++ "from:(" ++ s ++ ")"
      ∧ unquote_plus (quote_plus (str_bytes t)) = str_bytes t
      ∧ quote_byte 32 = ['+']
      ∧ quote_byte 58 = ['%', '3', 'A']
      ∧ quote_byte 40 = ['%', '2', '8']
      ∧ quote_byte 41 = ['%', '2', '9'] := by
  refine ⟨?_, unquote_plus_quote_plus _ (str_bytes_lt t),
    by decide, by decide, by decide, by decide⟩
  simp only [full_filter_string, generate_filter_query, String.append_assoc]

/-- C2 counterexample: at the specification's own example the encoded filter
is "is%3Aunread+from%3A%28foo%40bar.com%29" — the space is rendered as a plus
sign, not percent-encoded as %20, refuting the claim that the produced URL
percent-encodes spaces. -/
theorem c2_space_is_plus_cex :
    quote_plus (str_bytes "is:unread from:(foo@bar.com)")
        = ("is%3Aunread+from%3A%28foo%40bar.com%29").data
      ∧ quote_plus (str_bytes "is:unread from:(foo@bar.com)")
        ≠ ("is%3Aunread%20from%3A%28foo%40bar.com%29").data := by
  constructor
  · decide
  · decide

/-! ### Claim C5 -/

theorem key_le_total (a b : Nat × Nat) : key_le a b ∨ key_le b a := by
  unfold key_le
  omega

theorem key_le_trans {a b c : Nat × Nat} (h1 : key_le a b) (h2 : key_le b c) :
    key_le a c := by
  unfold key_le at h1 h2 ⊢
  omega

/-- C5, confirmed.  Ranking with criteria count yields a permutation of the
groups that is sorted by count descending with latest date descending as
tie-break (an absent date acting as the minimum timestamp); criteria date
sorts by latest date descending with count descending as tie-break; and on
the specification's example groups A(5, 2024-01-01), B(5, 2024-02-01),
C(3, 2024-03-01) the count ranking is [B, A, C] and the date ranking is
[C, B, A]. -/
theorem c5_sort_groups_ordering :
    (∀ gs : List (String × GroupData),
        List.Sorted count_before (sort_groups gs "count")
          ∧ (sort_groups gs "count").Perm gs
          ∧ List.Sorted date_before (sort_groups gs "date")
          ∧ (sort_groups gs "date").Perm gs)
      ∧ sort_groups [("A", exampleA), ("B", exampleB), ("C", exampleC)] "count"
          = [("B", exampleB), ("A", exampleA), ("C", exampleC)]
      ∧ sort_groups [("A", exampleA), ("B", exampleB), ("C", exampleC)] "date"
          = [("C", exampleC), ("B", exampleB), ("A", exampleA)] := by
  haveI ht1 : IsTotal (String × GroupData) count_before := ⟨fun _ _ => key_le_total _ _⟩
  haveI ht2 : IsTrans (String × GroupData) count_before :=
    ⟨fun _ _ _ h1 h2 => key_le_trans h2 h1⟩
  haveI ht3 : IsTotal (String × GroupData) date_before := ⟨fun _ _ => key_le_total _ _⟩
  haveI ht4 : IsTrans (String × GroupData) date_before :=
    ⟨fun _ _ _ h1 h2 => key_le_trans h2 h1⟩
  refine ⟨fun gs => ?_, by decide, by decide⟩
  have hc : sort_groups gs "count" = List.insertionSort count_before gs := by
    simp [sort_groups]
  have hd : sort_groups gs "date" = List.insertionSort date_before gs := by
    simp [sort_groups]
  rw [hc, hd]
  exact ⟨List.sorted_insertionSort count_before gs,
    List.perm_insertionSort count_before gs,
    List.sorted_insertionSort date_before gs,
    List.perm_insertionSort date_before gs⟩

/-! ### Claim C1 -/

/-- C1, corrected.  A header decode failure in a message is not caught at the
Grouper's call site: the error propagates out of group_emails and aborts the
whole grouping run, with no raw-string fallback and no warning. -/
theorem c1_decode_error_aborts (m : Msg) (ms : List Msg) (e : String)
    (h : extract_msg m = Except.error e) :
    group_emails (m :: ms) = Except.error e := by
  have hstep : group_step ([], []) m = Except.error e := by
    unfold group_step
    rw [h]
    rfl
  unfold group_emails group_emails_raw
  rw [List.foldlM_cons, hstep]
  rfl

theorem c1_decode_error_aborts_witness :
    extract_msg badEncodingMsg = Except.error "unknown encoding: x-unknown"
      ∧ group_emails [badEncodingMsg] = Except.error "unknown encoding: x-unknown" :=
  ⟨rfl, c1_decode_error_aborts badEncodingMsg [] "unknown encoding: x-unknown" rfl⟩

/-- C1 counterexample: on a message whose From header declares an unsupported
encoding the grouping run does not produce a result at all — refuting the
claim that the failure is caught and never aborts the run. -/
theorem c1_not_caught_cex : (group_emails [badEncodingMsg]).isOk = false := by
  decide

/-! ### Claim C4 -/

theorem raw_headerless (msgs : List Msg) :
    ∀ acc : List (String × GroupData) × List Warning, (∀ m ∈ msgs, m.headers = []) →
      msgs.foldlM group_step acc
        = Except.ok (acc.1, acc.2 ++ msgs.map (fun _ => Warning.noSender "Unknown Sender")) := by
  induction msgs with
  | nil => intro acc _; simp; rfl
  | cons m t ih =>
    intro acc h
    have hm : m.headers = [] := h m (by simp)
    have hex : extract_msg m = Except.ok initInfo := by
      unfold extract_msg
      rw [hm]
      rfl
    have hstep : group_step acc m
        = Except.ok (acc.1, acc.2 ++ [Warning.noSender "Unknown Sender"]) := by
      unfold group_step
      rw [hex]
      rfl
    rw [List.foldlM_cons, hstep]
    show t.foldlM group_step _ = _
    rw [ih _ (fun m' hm' => h m' (by simp [hm']))]
    simp

/-- C4, corrected.  When every record of the input lacks the required
structural fields (no headers at all), the pipeline does not surface an error
result: it returns an ok empty mapping, with only per-message warnings, so the
caller cannot distinguish unusable input from no newsletters found. -/
theorem c4_unusable_input_returns_ok_empty (msgs : List Msg)
    (h : ∀ m ∈ msgs, m.headers = []) :
    group_emails msgs
      = Except.ok ([], msgs.map (fun _ => Warning.noSender "Unknown Sender")) := by
  unfold group_emails group_emails_raw
  rw [raw_headerless msgs ([], []) h]
  rfl

theorem c4_unusable_input_returns_ok_empty_witness :
    group_emails [headerlessMsg] = Except.ok ([], [Warning.noSender "Unknown Sender"]) :=
  c4_unusable_input_returns_ok_empty [headerlessMsg] (by decide)

/-- C4 counterexample: on an input whose sole record has no headers at all the
pipeline returns an ok (non-error) empty group list, refuting the claim that
it surfaces an explicit error result. -/
theorem c4_no_error_surfaced_cex :
    group_emails [headerlessMsg] = Except.ok ([], [Warning.noSender "Unknown Sender"])
      ∧ (group_emails [headerlessMsg]).isOk = true := by
  constructor
  · rfl
  · decide

/-! ### Claim C9 -/

/-- C9, confirmed.  A message whose Date header is present and truthy but
fails to parse still updates its group — count incremented, id appended — a
badDate warning is emitted, and the group's latest_date, subject and
sender_display are left exactly as they were. -/
theorem c9_bad_date_message_still_counted (gs : List (String × GroupData))
    (ws : List Warning) (m : Msg) (st : MsgInfo) (key ds : String) (g : GroupData)
    (hex : extract_msg m = Except.ok st) (hkey : sender_key st = some key)
    (hds : st.date_str = some ds) (hne : ds ≠ "") (hp : date_parse ds = none) :
    group_step (gs, ws) m
        = Except.ok (update_group gs key (apply_msg st m.id), ws ++ [Warning.badDate ds key])
      ∧ (apply_msg st m.id g).count = g.count + 1
      ∧ (apply_msg st m.id g).ids = g.ids ++ [m.id]
      ∧ (apply_msg st m.id g).latest_date = g.latest_date
      ∧ (apply_msg st m.id g).subject = g.subject
      ∧ (apply_msg st m.id g).sender_display = g.sender_display := by
  have happ : ∀ g' : GroupData, apply_msg st m.id g' =
      { g' with
          count := g'.count + 1
          ids := g'.ids ++ [m.id]
          has_list_unsubscribe := g'.has_list_unsubscribe || st.unsub } := by
    intro g'
    unfold apply_msg
    rw [hds]
    simp [hne, hp]
  refine ⟨?_, by rw [happ], by rw [happ], by rw [happ], by rw [happ], by rw [happ]⟩
  unfold group_step
  rw [hex]
  show (match sender_key st with
    | none => pure ((gs, ws).1, (gs, ws).2 ++ [Warning.noSender st.sender])
    | some key => pure (update_group (gs, ws).1 key (apply_msg st m.id),
        (gs, ws).2 ++ bad_date_warning st key)) = _
  rw [hkey]
  unfold bad_date_warning
  rw [hds]
  simp [hne, hp]
  rfl

theorem c9_bad_date_message_still_counted_witness :
    (group_step ([], []) badDateMsg
        = Except.ok (update_group [] "n@x.com" (apply_msg badDateInfo badDateMsg.id),
            [] ++ [Warning.badDate "not-a-date" "n@x.com"])
      ∧ (apply_msg badDateInfo badDateMsg.id newsGroup).count = newsGroup.count + 1
      ∧ (apply_msg badDateInfo badDateMsg.id newsGroup).ids = newsGroup.ids ++ [badDateMsg.id]
      ∧ (apply_msg badDateInfo badDateMsg.id newsGroup).latest_date = newsGroup.latest_date
      ∧ (apply_msg badDateInfo badDateMsg.id newsGroup).subject = newsGroup.subject
      ∧ (apply_msg badDateInfo badDateMsg.id newsGroup).sender_display
          = newsGroup.sender_display) :=
  c9_bad_date_message_still_counted [] [] badDateMsg badDateInfo "n@x.com" "not-a-date"
    newsGroup rfl rfl rfl (by decide) rfl

/-! ### Claim C6 -/

/-- C6, confirmed.  A group appears in the Grouper's filtered output iff it is
among the accumulated groups and its has_list_unsubscribe flag is true or its
count exceeds one; a group with count exactly one and no unsubscribe flag
never appears. -/
theorem c6_filter_law (msgs : List Msg) (gs : List (String × GroupData))
    (ws : List Warning) (h : group_emails_raw msgs = Except.ok (gs, ws)) :
    group_emails msgs = Except.ok (gs.filter (fun kg => newsletter_keep kg.2), ws)
      ∧ (∀ kg : String × GroupData,
          kg ∈ gs.filter (fun kg => newsletter_keep kg.2)
            ↔ kg ∈ gs ∧ (kg.2.has_list_unsubscribe = true ∨ kg.2.count > 1))
      ∧ (∀ kg ∈ gs.filter (fun kg => newsletter_keep kg.2),
          ¬(kg.2.count = 1 ∧ kg.2.has_list_unsubscribe = false)) := by
  have hiff : ∀ kg : String × GroupData,
      kg ∈ gs.filter (fun kg => newsletter_keep kg.2)
        ↔ kg ∈ gs ∧ (kg.2.has_list_unsubscribe = true ∨ kg.2.count > 1) := by
    intro kg
    rw [List.mem_filter]
    unfold newsletter_keep
    simp [Bool.or_eq_true, decide_eq_true_eq]
  refine ⟨by simp [group_emails, h, Except.map], hiff, ?_⟩
  intro kg hkg hcontra
  obtain ⟨_, hcase⟩ := (hiff kg).mp hkg
  rcases hcase with hflag | hcount
  · rw [hcontra.2] at hflag
    cases hflag
  · omega

theorem c6_filter_law_witness :
    (group_emails [newsMsg]
        = Except.ok ([("n@x.com", newsGroup)].filter (fun kg => newsletter_keep kg.2), [])
      ∧ (∀ kg : String × GroupData,
          kg ∈ [("n@x.com", newsGroup)].filter (fun kg => newsletter_keep kg.2)
            ↔ kg ∈ [("n@x.com", newsGroup)]
              ∧ (kg.2.has_list_unsubscribe = true ∨ kg.2.count > 1))
      ∧ (∀ kg ∈ [("n@x.com", newsGroup)].filter (fun kg => newsletter_keep kg.2),
          ¬(kg.2.count = 1 ∧ kg.2.has_list_unsubscribe = false))) :=
  c6_filter_law [newsMsg] [("n@x.com", newsGroup)] [] rfl

/-! ### Grouping-fold infrastructure -/

theorem group_emails_raw_concat (ms : List Msg) (m : Msg) :
    group_emails_raw (ms ++ [m])
      = group_emails_raw ms >>= fun acc => group_step acc m := by
  unfold group_emails_raw
  rw [List.foldlM_append]
  congr 1
  funext acc
  simp [List.foldlM_cons]

theorem group_step_ok {acc res : List (String × GroupData) × List Warning} {m : Msg}
    (h : group_step acc m = Except.ok res) :
    ∃ st, extract_msg m = Except.ok st
      ∧ ((sender_key st = none ∧ res = (acc.1, acc.2 ++ [Warning.noSender st.sender]))
        ∨ ∃ key, sender_key st = some key
            ∧ res = (update_group acc.1 key (apply_msg st m.id),
                acc.2 ++ bad_date_warning st key)) := by
  unfold group_step at h
  cases hex : extract_msg m with
  | error e =>
    rw [hex] at h
    exact Except.noConfusion h
  | ok st =>
    rw [hex] at h
    refine ⟨st, rfl, ?_⟩
    simp only [bind, Except.bind] at h
    cases hk : sender_key st with
    | none =>
      rw [hk] at h
      simp only [pure, Except.pure, Except.ok.injEq] at h
      exact Or.inl ⟨rfl, h.symm⟩
    | some key =>
      rw [hk] at h
      simp only [pure, Except.pure, Except.ok.injEq] at h
      exact Or.inr ⟨key, rfl, h.symm⟩

theorem apply_msg_count (st : MsgInfo) (mid : Option String) (g : GroupData) :
    (apply_msg st mid g).count = g.count + 1 := by
  unfold apply_msg
  dsimp only
  repeat' split
  all_goals rfl

theorem apply_msg_ids (st : MsgInfo) (mid : Option String) (g : GroupData) :
    (apply_msg st mid g).ids = g.ids ++ [mid] := by
  unfold apply_msg
  dsimp only
  repeat' split
  all_goals rfl

theorem apply_msg_unsub (st : MsgInfo) (mid : Option String) (g : GroupData) :
    (apply_msg st mid g).has_list_unsubscribe = (g.has_list_unsubscribe || st.unsub) := by
  unfold apply_msg
  dsimp only
  repeat' split
  all_goals rfl

theorem sum_counts_update (gs : List (String × GroupData)) (key : String)
    (st : MsgInfo) (mid : Option String) :
    ((update_group gs key (apply_msg st mid)).map (fun kg => kg.2.count)).sum
      = (gs.map (fun kg => kg.2.count)).sum + 1 := by
  induction gs with
  | nil => simp [update_group, apply_msg_count, defaultGroup]
  | cons hd tl ih =>
    obtain ⟨k, g⟩ := hd
    unfold update_group
    by_cases hk : k = key
    · simp [hk, apply_msg_count]
      omega
    · simp [hk, ih]
      omega

/-! ### Claim C7 -/

/-- C7, corrected.  The sum of count over the groups accumulated BEFORE the
retention filter equals the number of messages not dropped for a missing
sender address.  (The filtered groups the Grouper returns do not satisfy
this: see the counterexample.) -/
theorem c7_prefilter_count_sum (msgs : List Msg) :
    ∀ gs ws, group_emails_raw msgs = Except.ok (gs, ws) →
      (gs.map (fun kg => kg.2.count)).sum = msgs_with_sender msgs := by
  induction msgs using List.reverseRecOn with
  | nil =>
    intro gs ws h
    unfold group_emails_raw at h
    simp only [List.foldlM_nil, pure, Except.pure, Except.ok.injEq, Prod.mk.injEq] at h
    rw [← h.1]
    simp [msgs_with_sender]
  | append_singleton ms m ih =>
    intro gs ws h
    rw [group_emails_raw_concat] at h
    cases hms : group_emails_raw ms with
    | error e =>
      rw [hms] at h
      exact Except.noConfusion h
    | ok acc =>
      rw [hms] at h
      simp only [bind, Except.bind] at h
      obtain ⟨st, hex, hcase⟩ := group_step_ok h
      have hinfo : msg_info m = some st := msg_info_eq_some.mpr hex
      have hmw : msgs_with_sender (ms ++ [m])
          = msgs_with_sender ms + (if (msg_key m).isSome then 1 else 0) := by
        unfold msgs_with_sender
        rw [List.countP_append]
        simp [List.countP_cons]
      have hih : (acc.1.map (fun kg => kg.2.count)).sum = msgs_with_sender ms :=
        ih acc.1 acc.2 (by rw [hms])
      rcases hcase with ⟨hnone, hres⟩ | ⟨key, hkey, hres⟩
      · have hkm : msg_key m = none := by
          unfold msg_key
          rw [hinfo]
          simp [hnone]
        have hgs : gs = acc.1 := by
          have := congrArg Prod.fst hres
          simpa using this
        rw [hgs, hih, hmw, hkm]
        simp
      · have hkm : msg_key m = some key := by
          unfold msg_key
          rw [hinfo]
          simp [hkey]
        have hgs : gs = update_group acc.1 key (apply_msg st m.id) := by
          have := congrArg Prod.fst hres
          simpa using this
        rw [hgs, sum_counts_update, hih, hmw, hkm]
        simp

theorem c7_prefilter_count_sum_witness :
    ((([("n@x.com", newsGroup), ("a@b", loneGroup)] : List (String × GroupData)).map
        (fun kg => kg.2.count)).sum = msgs_with_sender [newsMsg, loneMsg]) :=
  c7_prefilter_count_sum [newsMsg, loneMsg] [("n@x.com", newsGroup), ("a@b", loneGroup)]
    [] rfl

/-- C7 counterexample: a single message with an extractable sender but no
List-Unsubscribe header is not dropped, yet the Grouper returns no groups at
all, so the sum of count over the returned groups is 0 while the number of
non-dropped messages is 1. -/
theorem c7_filtered_sum_cex :
    group_emails [loneMsg] = Except.ok ([], [])
      ∧ msgs_with_sender [loneMsg] = 1
      ∧ ¬((([] : List (String × GroupData)).map (fun kg => kg.2.count)).sum
            = msgs_with_sender [loneMsg]) := by
  refine ⟨rfl, by decide, by decide⟩

/-! ### Association-list lemmas -/

theorem update_group_keys (gs : List (String × GroupData)) (key : String)
    (f : GroupData → GroupData) :
    (update_group gs key f).map Prod.fst
      = if key ∈ gs.map Prod.fst then gs.map Prod.fst
        else gs.map Prod.fst ++ [key] := by
  induction gs with
  | nil => simp [update_group]
  | cons hd tl ih =>
    obtain ⟨k, g⟩ := hd
    unfold update_group
    by_cases hk : k = key
    · subst hk
      simp
    · rw [if_neg hk]
      simp only [List.map_cons]
      rw [ih]
      by_cases hmem : key ∈ tl.map Prod.fst
      · rw [if_pos hmem,
          if_pos (show key ∈ k :: tl.map Prod.fst from List.mem_cons_of_mem _ hmem)]
      · rw [if_neg hmem,
          if_neg (show key ∉ k :: tl.map Prod.fst by
            intro hc
            rcases List.mem_cons.mp hc with h1 | h2
            · exact hk h1.symm
            · exact hmem h2)]
        simp

theorem update_group_nodup {gs : List (String × GroupData)} {key : String}
    {f : GroupData → GroupData} (h : (gs.map Prod.fst).Nodup) :
    ((update_group gs key f).map Prod.fst).Nodup := by
  rw [update_group_keys]
  split
  · exact h
  · rename_i hmem
    simp [List.nodup_append, h, hmem]

theorem find_group_mem {gs : List (String × GroupData)} {key : String}
    (h : key ∈ gs.map Prod.fst) : (key, find_group gs key) ∈ gs := by
  induction gs with
  | nil => simp at h
  | cons hd tl ih =>
    obtain ⟨k, g⟩ := hd
    by_cases hk : k = key
    · subst hk
      have hfg : find_group ((k, g) :: tl) k = g := by
        unfold find_group
        simp [List.find?_cons]
      rw [hfg]
      exact List.mem_cons_self _ _
    · have hmem : key ∈ tl.map Prod.fst := by
        simp only [List.map_cons, List.mem_cons] at h
        rcases h with h | h
        · exact absurd h.symm hk
        · exact h
      right
      have : find_group ((k, g) :: tl) key = find_group tl key := by
        unfold find_group
        rw [List.find?_cons_of_neg]
        simp [hk]
      rw [this]
      exact ih hmem

theorem find_group_not_mem {gs : List (String × GroupData)} {key : String}
    (h : key ∉ gs.map Prod.fst) : find_group gs key = defaultGroup := by
  induction gs with
  | nil => rfl
  | cons hd tl ih =>
    obtain ⟨k, g⟩ := hd
    simp only [List.map_cons, List.mem_cons, not_or] at h
    have : find_group ((k, g) :: tl) key = find_group tl key := by
      unfold find_group
      rw [List.find?_cons_of_neg]
      simp
      exact fun hkk => h.1 hkk.symm
    rw [this]
    exact ih h.2

theorem update_group_mem {gs : List (String × GroupData)} {key : String}
    {f : GroupData → GroupData} {kg : String × GroupData}
    (hnd : (gs.map Prod.fst).Nodup) (hmem : kg ∈ update_group gs key f) :
    (kg ∈ gs ∧ kg.1 ≠ key) ∨ kg = (key, f (find_group gs key)) := by
  induction gs with
  | nil =>
    simp only [update_group, List.mem_singleton] at hmem
    right
    rw [hmem]
    rfl
  | cons hd tl ih =>
    obtain ⟨k, g⟩ := hd
    simp only [List.map_cons, List.nodup_cons] at hnd
    obtain ⟨hknotin, hndtl⟩ := hnd
    unfold update_group at hmem
    by_cases hk : k = key
    · subst hk
      rw [if_pos rfl] at hmem
      rcases List.mem_cons.mp hmem with heq | htl
      · right
        rw [heq]
        have : find_group ((k, g) :: tl) k = g := by
          unfold find_group
          simp [List.find?_cons]
        rw [this]
      · left
        refine ⟨List.mem_cons_of_mem _ htl, fun hkey => ?_⟩
        exact hknotin (hkey ▸ List.mem_map_of_mem Prod.fst htl)
    · rw [if_neg hk] at hmem
      have hfg : find_group ((k, g) :: tl) key = find_group tl key := by
        unfold find_group
        rw [List.find?_cons_of_neg]
        simp [hk]
      rcases List.mem_cons.mp hmem with heq | htl
      · left
        constructor
        · rw [heq]; exact List.mem_cons_self _ _
        · rw [heq]; exact hk
      · rcases ih hndtl htl with ⟨h1, h2⟩ | h2
        · exact Or.inl ⟨List.mem_cons_of_mem _ h1, h2⟩
        · right
          rw [h2, hfg]

/-! ### apply_msg latest-field lemmas -/

theorem date_parse_empty : date_parse "" = none := rfl

theorem parsed_date_spec {st : MsgInfo} {d : Nat} (h : parsed_date st = some d) :
    ∃ ds, st.date_str = some ds ∧ ds ≠ "" ∧ date_parse ds = some d := by
  unfold parsed_date at h
  cases hds : st.date_str with
  | none => rw [hds] at h; cases h
  | some ds =>
    rw [hds] at h
    simp only [Option.some_bind] at h
    refine ⟨ds, rfl, ?_, h⟩
    intro hds0
    rw [hds0, date_parse_empty] at h
    cases h

theorem apply_msg_latest_none {st : MsgInfo} (mid : Option String) (g : GroupData)
    (h : parsed_date st = none) :
    (apply_msg st mid g).latest_date = g.latest_date
      ∧ (apply_msg st mid g).subject = g.subject
      ∧ (apply_msg st mid g).sender_display = g.sender_display := by
  unfold apply_msg
  unfold parsed_date at h
  cases hds : st.date_str with
  | none =>
    dsimp only
    exact ⟨rfl, rfl, rfl⟩
  | some ds =>
    rw [hds] at h
    simp only [Option.some_bind] at h
    by_cases hne : ds = ""
    · subst hne
      dsimp only
      simp
    · dsimp only
      simp [hne, h]

theorem apply_msg_latest_update {st : MsgInfo} (mid : Option String) (g : GroupData)
    {d : Nat} (h : parsed_date st = some d)
    (hcur : g.latest_date = none ∨ ∃ cur, g.latest_date = some cur ∧ cur < d) :
    (apply_msg st mid g).latest_date = some d
      ∧ (apply_msg st mid g).subject = some st.subject
      ∧ (apply_msg st mid g).sender_display = some st.sender := by
  obtain ⟨ds, hds, hne, hdp⟩ := parsed_date_spec h
  unfold apply_msg
  rw [hds]
  dsimp only
  rw [if_neg hne, hdp]
  rcases hcur with hn | ⟨cur, hc, hlt⟩
  · rw [show ({ g with
        count := g.count + 1
        ids := g.ids ++ [mid]
        has_list_unsubscribe := g.has_list_unsubscribe || st.unsub } : GroupData).latest_date
      = g.latest_date from rfl, hn]
    exact ⟨rfl, rfl, rfl⟩
  · rw [show ({ g with
        count := g.count + 1
        ids := g.ids ++ [mid]
        has_list_unsubscribe := g.has_list_unsubscribe || st.unsub } : GroupData).latest_date
      = g.latest_date from rfl, hc]
    dsimp only
    rw [if_pos hlt]
    exact ⟨rfl, rfl, rfl⟩

theorem apply_msg_latest_keep {st : MsgInfo} (mid : Option String) (g : GroupData)
    {d cur : Nat} (h : parsed_date st = some d) (hc : g.latest_date = some cur)
    (hge : ¬ cur < d) :
    (apply_msg st mid g).latest_date = g.latest_date
      ∧ (apply_msg st mid g).subject = g.subject
      ∧ (apply_msg st mid g).sender_display = g.sender_display := by
  obtain ⟨ds, hds, hne, hdp⟩ := parsed_date_spec h
  unfold apply_msg
  rw [hds]
  dsimp only
  rw [if_neg hne, hdp]
  rw [show ({ g with
      count := g.count + 1
      ids := g.ids ++ [mid]
      has_list_unsubscribe := g.has_list_unsubscribe || st.unsub } : GroupData).latest_date
    = g.latest_date from rfl, hc]
  dsimp only
  rw [if_neg hge]
  exact ⟨rfl, rfl, rfl⟩

/-! ### sync_ok preservation -/

theorem sync_ok_extend {ms : List Msg} {m : Msg} {kg : String × GroupData}
    (hs : sync_ok ms kg)
    (hnew : ∀ st', msg_info m = some st' → sender_key st' ≠ some kg.1) :
    sync_ok (ms ++ [m]) kg := by
  rcases hs with ⟨hall, hnop⟩ | ⟨m0, hm0, st0, hi0, hk0, d, hd, h1, h2, h3, hmax⟩
  · left
    refine ⟨hall, ?_⟩
    intro m' hm' st' hst' hk'
    rcases List.mem_append.mp hm' with hin | hin
    · exact hnop m' hin st' hst' hk'
    · have hmm : m' = m := by simpa using hin
      subst hmm
      exact absurd hk' (hnew st' hst')
  · right
    refine ⟨m0, List.mem_append_left _ hm0, st0, hi0, hk0, d, hd, h1, h2, h3, ?_⟩
    intro m' hm' st' hst' hk' d' hd'
    rcases List.mem_append.mp hm' with hin | hin
    · exact hmax m' hin st' hst' hk' d' hd'
    · have hmm : m' = m := by simpa using hin
      subst hmm
      exact absurd hk' (hnew st' hst')

/-- The heart of the latest-fields argument: updating the group of key with
the new message preserves sync_ok. -/
theorem sync_ok_update {ms : List Msg} {m : Msg} {st : MsgInfo} {key : String}
    {g0 : GroupData}
    (hinfo : msg_info m = some st) (hkey : sender_key st = some key)
    (huniq : ∀ st', msg_info m = some st' → st' = st)
    (hold : sync_ok ms (key, g0)) :
    sync_ok (ms ++ [m]) (key, apply_msg st m.id g0) := by
  cases hpd : parsed_date st with
  | none =>
    obtain ⟨hl, hsubj, hdisp⟩ := apply_msg_latest_none m.id g0 hpd
    rcases hold with ⟨⟨ha1, ha2, ha3⟩, hnop⟩ |
      ⟨m0, hm0, st0, hi0, hk0, d, hd, h1, h2, h3, hmax⟩
    · left
      refine ⟨⟨by rw [hl]; exact ha1, by rw [hsubj]; exact ha2,
        by rw [hdisp]; exact ha3⟩, ?_⟩
      intro m' hm' st' hst' hk'
      rcases List.mem_append.mp hm' with hin | hin
      · exact hnop m' hin st' hst' hk'
      · have hmm : m' = m := by simpa using hin
        subst hmm
        rw [huniq st' hst']
        exact hpd
    · right
      refine ⟨m0, List.mem_append_left _ hm0, st0, hi0, hk0, d, hd,
        by rw [hl]; exact h1, by rw [hsubj]; exact h2, by rw [hdisp]; exact h3, ?_⟩
      intro m' hm' st' hst' hk' d' hd'
      rcases List.mem_append.mp hm' with hin | hin
      · exact hmax m' hin st' hst' hk' d' hd'
      · have hmm : m' = m := by simpa using hin
        subst hmm
        rw [huniq st' hst', hpd] at hd'
        exact Option.noConfusion hd'
  | some d =>
    cases hg0 : g0.latest_date with
    | none =>
      have hup := apply_msg_latest_update m.id g0 hpd (Or.inl hg0)
      right
      refine ⟨m, List.mem_append_right _ (by simp), st, hinfo, hkey, d, hpd,
        hup.1, hup.2.1, hup.2.2, ?_⟩
      intro m' hm' st' hst' hk' d' hd'
      rcases List.mem_append.mp hm' with hin | hin
      · rcases hold with ⟨_, hnop⟩ | ⟨m0, hm0, st0, hi0, hk0, d0, hd0, h1, _, _, _⟩
        · rw [hnop m' hin st' hst' hk'] at hd'
          exact Option.noConfusion hd'
        · rw [hg0] at h1
          exact Option.noConfusion h1
      · have hmm : m' = m := by simpa using hin
        subst hmm
        rw [huniq st' hst', hpd] at hd'
        have hdd : d = d' := Option.some.inj hd'
        omega
    | some cur =>
      rcases hold with ⟨⟨ha1, _, _⟩, _⟩ |
        ⟨m0, hm0, st0, hi0, hk0, d0, hd0, h1, h2, h3, hmax⟩
      · rw [hg0] at ha1
        exact Option.noConfusion ha1
      · have hd0cur : d0 = cur := by
          rw [hg0] at h1
          exact (Option.some.inj h1).symm
        by_cases hlt : cur < d
        · have hup := apply_msg_latest_update m.id g0 hpd (Or.inr ⟨cur, hg0, hlt⟩)
          right
          refine ⟨m, List.mem_append_right _ (by simp), st, hinfo, hkey, d, hpd,
            hup.1, hup.2.1, hup.2.2, ?_⟩
          intro m' hm' st' hst' hk' d' hd'
          rcases List.mem_append.mp hm' with hin | hin
          · have := hmax m' hin st' hst' hk' d' hd'
            omega
          · have hmm : m' = m := by simpa using hin
            subst hmm
            rw [huniq st' hst', hpd] at hd'
            have hdd : d = d' := Option.some.inj hd'
            omega
        · have hkp := apply_msg_latest_keep m.id g0 hpd hg0 hlt
          right
          refine ⟨m0, List.mem_append_left _ hm0, st0, hi0, hk0, d0, hd0,
            by rw [hkp.1]; exact h1, by rw [hkp.2.1]; exact h2,
            by rw [hkp.2.2]; exact h3, ?_⟩
          intro m' hm' st' hst' hk' d' hd'
          rcases List.mem_append.mp hm' with hin | hin
          · exact hmax m' hin st' hst' hk' d' hd'
          · have hmm : m' = m := by simpa using hin
            subst hmm
            rw [huniq st' hst', hpd] at hd'
            have hdd : d = d' := Option.some.inj hd'
            omega

/-! ### The grouping invariant -/

theorem raw_inv_holds (msgs : List Msg) :
    ∀ gs ws, group_emails_raw msgs = Except.ok (gs, ws) → raw_inv msgs gs := by
  induction msgs using List.reverseRecOn with
  | nil =>
    intro gs ws h
    unfold group_emails_raw at h
    simp only [List.foldlM_nil, pure, Except.pure, Except.ok.injEq, Prod.mk.injEq] at h
    rw [← h.1]
    exact ⟨List.nodup_nil, by simp, by simp, by simp⟩
  | append_singleton ms m ih =>
    intro gs ws h
    rw [group_emails_raw_concat] at h
    cases hms : group_emails_raw ms with
    | error e =>
      rw [hms] at h
      exact Except.noConfusion h
    | ok acc =>
      rw [hms] at h
      simp only [bind, Except.bind] at h
      obtain ⟨st, hex, hcase⟩ := group_step_ok h
      have hinfo : msg_info m = some st := msg_info_eq_some.mpr hex
      have hprev : raw_inv ms acc.1 := ih acc.1 acc.2 (by rw [hms])
      have huniq : ∀ st', msg_info m = some st' → st' = st := by
        intro st' h'
        rw [hinfo] at h'
        exact (Option.some.inj h').symm
      rcases hcase with ⟨hnone, hres⟩ | ⟨key, hkey, hres⟩
      · have hgs : gs = acc.1 := by
          have := congrArg Prod.fst hres
          simpa using this
        subst hgs
        refine ⟨hprev.nodup, ?_, ?_, ?_⟩
        · intro m' hm' st' hst' k hk
          rcases List.mem_append.mp hm' with hin | hin
          · exact hprev.cover m' hin st' hst' k hk
          · have hmm : m' = m := by simpa using hin
            subst hmm
            rw [huniq st' hst', hnone] at hk
            exact Option.noConfusion hk
        · intro kg hkg
          obtain ⟨m', hm', st', h1, h2⟩ := hprev.keysrc kg hkg
          exact ⟨m', List.mem_append_left _ hm', st', h1, h2⟩
        · intro kg hkg
          refine sync_ok_extend (hprev.sync kg hkg) ?_
          intro st' hst' hk
          rw [huniq st' hst', hnone] at hk
          exact Option.noConfusion hk
      · have hgs : gs = update_group acc.1 key (apply_msg st m.id) := by
          have := congrArg Prod.fst hres
          simpa using this
        subst hgs
        refine ⟨update_group_nodup hprev.nodup, ?_, ?_, ?_⟩
        · intro m' hm' st' hst' k hk
          rw [update_group_keys]
          rcases List.mem_append.mp hm' with hin | hin
          · have hold := hprev.cover m' hin st' hst' k hk
            split
            · exact hold
            · exact List.mem_append_left _ hold
          · have hmm : m' = m := by simpa using hin
            subst hmm
            rw [huniq st' hst', hkey] at hk
            have hkk : k = key := (Option.some.inj hk).symm
            subst hkk
            split
            · rename_i hmem
              exact hmem
            · exact List.mem_append_right _ (by simp)
        · intro kg hkg
          rcases update_group_mem hprev.nodup hkg with ⟨hin, _⟩ | heq
          · obtain ⟨m', hm', st', h1, h2⟩ := hprev.keysrc kg hin
            exact ⟨m', List.mem_append_left _ hm', st', h1, h2⟩
          · refine ⟨m, List.mem_append_right _ (by simp), st, hinfo, ?_⟩
            rw [heq]
            exact hkey
        · intro kg hkg
          rcases update_group_mem hprev.nodup hkg with ⟨hin, hne⟩ | heq
          · refine sync_ok_extend (hprev.sync kg hin) ?_
            intro st' hst' hk
            rw [huniq st' hst', hkey] at hk
            exact hne (Option.some.inj hk).symm
          · rw [heq]
            have hold : sync_ok ms (key, find_group acc.1 key) := by
              by_cases hmem : key ∈ acc.1.map Prod.fst
              · exact hprev.sync (key, find_group acc.1 key) (find_group_mem hmem)
              · left
                rw [find_group_not_mem hmem]
                refine ⟨⟨rfl, rfl, rfl⟩, ?_⟩
                intro m' hm' st' hst' hk'
                exact absurd (hprev.cover m' hm' st' hst' key hk') hmem
            exact sync_ok_update hinfo hkey huniq hold


/-! ### Claim C8 -/

/-- C8, confirmed.  For every group in the Grouper's output: latest_date,
subject (latestSubject) and sender_display (displaySender) are all unset or
all set, and when set they are derived from one attributed member message
whose successfully parsed Date is maximal among the group's members. -/
theorem c8_latest_fields_sync (msgs : List Msg) (gs : List (String × GroupData))
    (ws : List Warning) (h : group_emails msgs = Except.ok (gs, ws)) :
    ∀ kg ∈ gs, sync_ok msgs kg := by
  unfold group_emails at h
  cases hraw : group_emails_raw msgs with
  | error e =>
    rw [hraw] at h
    exact Except.noConfusion h
  | ok acc =>
    rw [hraw] at h
    simp only [Except.map, Except.ok.injEq] at h
    have hgs : gs = acc.1.filter (fun kg => newsletter_keep kg.2) := by
      have := congrArg Prod.fst h
      simpa using this.symm
    intro kg hkg
    rw [hgs] at hkg
    have hmem : kg ∈ acc.1 := List.mem_of_mem_filter hkg
    exact (raw_inv_holds msgs acc.1 acc.2 (by rw [hraw])).sync kg hmem

theorem c8_latest_fields_sync_witness :
    sync_ok [newsMsg] ("n@x.com", newsGroup) :=
  c8_latest_fields_sync [newsMsg] [("n@x.com", newsGroup)] [] rfl
    ("n@x.com", newsGroup) (List.mem_singleton.mpr rfl)

/-! ### Claim C3 -/

/-- C3, corrected.  The keys of the Grouper's output mapping are unique per
run and each key is the extracted sender address of some attributed message —
taken verbatim, with no lower-casing, so two addresses differing only in
letter case form distinct groups (see the counterexample). -/
theorem c3_keys_verbatim_unique (msgs : List Msg) (gs : List (String × GroupData))
    (ws : List Warning) (h : group_emails msgs = Except.ok (gs, ws)) :
    (gs.map Prod.fst).Nodup
      ∧ ∀ kg ∈ gs, ∃ m ∈ msgs, ∃ st, msg_info m = some st
          ∧ sender_key st = some kg.1 := by
  unfold group_emails at h
  cases hraw : group_emails_raw msgs with
  | error e =>
    rw [hraw] at h
    exact Except.noConfusion h
  | ok acc =>
    rw [hraw] at h
    simp only [Except.map, Except.ok.injEq] at h
    have hgs : gs = acc.1.filter (fun kg => newsletter_keep kg.2) := by
      have := congrArg Prod.fst h
      simpa using this.symm
    have hinv := raw_inv_holds msgs acc.1 acc.2 (by rw [hraw])
    constructor
    · rw [hgs]
      exact hinv.nodup.sublist ((List.filter_sublist acc.1).map Prod.fst)
    · intro kg hkg
      rw [hgs] at hkg
      exact hinv.keysrc kg (List.mem_of_mem_filter hkg)

theorem c3_keys_verbatim_unique_witness :
    (([("Foo@Bar.com", caseGroupA), ("foo@bar.com", caseGroupB)].map Prod.fst).Nodup
      ∧ ∀ kg ∈ [("Foo@Bar.com", caseGroupA), ("foo@bar.com", caseGroupB)],
          ∃ m ∈ [caseMsgA, caseMsgB], ∃ st, msg_info m = some st
            ∧ sender_key st = some kg.1) :=
  c3_keys_verbatim_unique [caseMsgA, caseMsgB]
    [("Foo@Bar.com", caseGroupA), ("foo@bar.com", caseGroupB)] [] rfl

/-- C3 counterexample: two messages whose extracted addresses differ only in
letter case produce two distinct singleton groups, and the produced key is not
lower-cased — refuting both the lower-casing and the shared-group parts of the
claim. -/
theorem c3_case_sensitive_keys_cex :
    group_emails [caseMsgA, caseMsgB]
        = Except.ok ([("Foo@Bar.com", caseGroupA), ("foo@bar.com", caseGroupB)], [])
      ∧ str_lower "Foo@Bar.com" ≠ "Foo@Bar.com"
      ∧ ("Foo@Bar.com" : String) ≠ "foo@bar.com" := by
  refine ⟨rfl, by decide, by decide⟩

/-! ### Claim C10 -/

theorem last_header_concat (n : String) (hs : List Header) (hh : Header) :
    last_header n (hs ++ [hh])
      = if str_lower hh.name = n then some hh.value else last_header n hs := by
  unfold last_header
  rw [List.filter_append]
  by_cases hp : str_lower hh.name = n
  · simp [hp, List.getLast?_concat]
  · simp [hp]

/-- C10, confirmed.  Among From, Subject and Date the header loop keeps the
value of the last occurrence (case-insensitively named), each later occurrence
overwriting the earlier one, while any List-Unsubscribe occurrence — whatever
its value — sets the message's unsubscribe flag. -/
theorem c10_last_occurrence_wins (hs : List Header) (st : MsgInfo)
    (h : List.foldlM headerStep initInfo hs = Except.ok st) :
    st.date_str = last_header "date" hs
      ∧ st.unsub = hs.any (fun hh => str_lower hh.name = "list-unsubscribe")
      ∧ (∀ v, last_header "from" hs = some v →
          ∃ s, decode_email_header v = Except.ok s ∧ st.sender = s
            ∧ st.sender_email = some (sender_address s))
      ∧ (∀ v, last_header "subject" hs = some v →
          ∃ s, decode_email_header v = Except.ok s ∧ st.subject = s) := by
  induction hs using List.reverseRecOn generalizing st with
  | nil =>
    simp only [List.foldlM_nil, pure, Except.pure, Except.ok.injEq] at h
    rw [← h]
    refine ⟨rfl, rfl, ?_, ?_⟩
    · intro v hv
      exact Option.noConfusion hv
    · intro v hv
      exact Option.noConfusion hv
  | append_singleton t hh ih =>
    rw [List.foldlM_append] at h
    cases hmid : List.foldlM headerStep initInfo t with
    | error e =>
      rw [hmid] at h
      exact Except.noConfusion h
    | ok mid =>
      rw [hmid] at h
      simp only [bind, Except.bind, List.foldlM_cons, List.foldlM_nil] at h
      have hstep : headerStep mid hh = Except.ok st := by
        cases hs2 : headerStep mid hh with
        | error e => rw [hs2] at h; exact Except.noConfusion h
        | ok st2 =>
          rw [hs2] at h
          simp only [pure, Except.pure, Except.ok.injEq] at h
          rw [h]
      obtain ⟨hd, hu, hf, hsub⟩ := ih mid hmid
      rw [last_header_concat, last_header_concat, last_header_concat, List.any_append]
      unfold headerStep at hstep
      by_cases h1 : str_lower hh.name = "from"
      · rw [if_pos h1] at hstep
        cases hdec : decode_email_header hh.value with
        | error e => rw [hdec] at hstep; exact Except.noConfusion hstep
        | ok s =>
          rw [hdec] at hstep
          simp only [bind, Except.bind, pure, Except.pure, Except.ok.injEq] at hstep
          rw [← hstep]
          refine ⟨?_, ?_, ?_, ?_⟩
          · rw [if_neg (by rw [h1]; decide)]
            exact hd
          · rw [show (List.any [hh] fun hh => decide (str_lower hh.name = "list-unsubscribe"))
                = false by simp [h1]]
            simp [hu]
          · intro v hv
            rw [if_pos h1] at hv
            refine ⟨s, ?_, rfl, rfl⟩
            rw [← Option.some.inj hv]
            exact hdec
          · intro v hv
            rw [if_neg (by rw [h1]; decide)] at hv
            exact hsub v hv
      · rw [if_neg h1] at hstep
        by_cases h2 : str_lower hh.name = "subject"
        · rw [if_pos h2] at hstep
          cases hdec : decode_email_header hh.value with
          | error e => rw [hdec] at hstep; exact Except.noConfusion hstep
          | ok s =>
            rw [hdec] at hstep
            simp only [bind, Except.bind, pure, Except.pure, Except.ok.injEq] at hstep
            rw [← hstep]
            refine ⟨?_, ?_, ?_, ?_⟩
            · rw [if_neg (by rw [h2]; decide)]
              exact hd
            · rw [show (List.any [hh] fun hh => decide (str_lower hh.name = "list-unsubscribe"))
                  = false by simp [h2]]
              simp [hu]
            · intro v hv
              rw [if_neg h1] at hv
              exact hf v hv
            · intro v hv
              rw [if_pos h2] at hv
              refine ⟨s, ?_, rfl⟩
              rw [← Option.some.inj hv]
              exact hdec
        · rw [if_neg h2] at hstep
          by_cases h3 : str_lower hh.name = "date"
          · rw [if_pos h3] at hstep
            simp only [pure, Except.pure, Except.ok.injEq] at hstep
            rw [← hstep]
            refine ⟨?_, ?_, ?_, ?_⟩
            · rw [if_pos h3]
            · rw [show (List.any [hh] fun hh => decide (str_lower hh.name = "list-unsubscribe"))
                  = false by simp [h3]]
              simp [hu]
            · intro v hv
              rw [if_neg h1] at hv
              exact hf v hv
            · intro v hv
              rw [if_neg h2] at hv
              exact hsub v hv
          · rw [if_neg h3] at hstep
            by_cases h4 : str_lower hh.name = "list-unsubscribe"
            · rw [if_pos h4] at hstep
              simp only [pure, Except.pure, Except.ok.injEq] at hstep
              rw [← hstep]
              refine ⟨?_, ?_, ?_, ?_⟩
              · rw [if_neg h3]
                exact hd
              · simp [h4]
              · intro v hv
                rw [if_neg h1] at hv
                exact hf v hv
              · intro v hv
                rw [if_neg h2] at hv
                exact hsub v hv
            · rw [if_neg h4] at hstep
              simp only [pure, Except.pure, Except.ok.injEq] at hstep
              rw [← hstep]
              refine ⟨?_, ?_, ?_, ?_⟩
              · rw [if_neg h3]
                exact hd
              · simp [h4, hu]
              · intro v hv
                rw [if_neg h1] at hv
                exact hf v hv
              · intro v hv
                rw [if_neg h2] at hv
                exact hsub v hv

theorem c10_last_occurrence_wins_witness :
    (dupInfo.date_str = last_header "date" dupHeaders
      ∧ dupInfo.unsub
          = dupHeaders.any (fun hh => str_lower hh.name = "list-unsubscribe")
      ∧ (∀ v, last_header "from" dupHeaders = some v →
          ∃ s, decode_email_header v = Except.ok s ∧ dupInfo.sender = s
            ∧ dupInfo.sender_email = some (sender_address s))
      ∧ (∀ v, last_header "subject" dupHeaders = some v →
          ∃ s, decode_email_header v = Except.ok s ∧ dupInfo.subject = s)) :=
  c10_last_occurrence_wins dupHeaders dupInfo rfl

end TidyInbox
